import Mathlib

/-!
Shallow embedding of `src/input.rs` of the `aoc-util` repository: a small
library that reads a text file, splits its contents by a configurable
strategy (whole file, lines, whitespace, single-character delimiter),
optionally trims whitespace, and parses each chunk into a caller-chosen
type.

Strings are modelled as `List Char` (the sequence of characters of a Rust
`String`).  The filesystem is modelled as a function from paths to
`Except String (List Char)`: an `Except.error` models any open/read/decode
failure of `File::open` / `read_to_string` (the payload models the
`std::io::Error`), an `Except.ok` is the decoded file contents.  A target
type `T: FromStr` is modelled by a parameter `parse : List Char → Except ε τ`
(Rust `str::parse`, i.e. `<T as FromStr>::from_str`).
-/

set_option autoImplicit false

universe u v

/-- Rust `char::is_whitespace` restricted to the characters the claims
exercise; Lean's `Char.isWhitespace` (space, tab, CR, LF) is the ASCII
fragment of Rust's Unicode `White_Space` classification. -/
def isWS (c : Char) : Bool := c.isWhitespace

/-- Rust `str::trim`: remove leading and trailing whitespace. -/
def rustTrim (s : List Char) : List Char :=
  ((s.dropWhile isWS).reverse.dropWhile isWS).reverse

/-- Rust `str::split(p)` on a character predicate: split at every character
satisfying `p`, keeping empty chunks.  `splitP p [] = [[]]`, matching Rust,
where `"".split(c)` yields one empty chunk. -/
def splitP (p : Char → Bool) : List Char → List (List Char)
  | [] => [[]]
  | c :: cs =>
    if p c then [] :: splitP p cs
    else
      match splitP p cs with
      | [] => [[c]]
      | h :: t => (c :: h) :: t

/-- Rust `str::split_whitespace`: split on whitespace and discard the empty
chunks, so that runs of whitespace and leading/trailing whitespace yield
nothing. -/
def rustSplitWhitespace (s : List Char) : List (List Char) :=
  (splitP isWS s).filter (fun c => c ≠ [])

/-- The final `\r` of a segment, if present, is removed; `BufRead::lines`
applies this only to a segment it has just popped a `\n` from. -/
def stripCR (l : List Char) : List Char :=
  if l.getLast? = some '\r' then l.dropLast else l

/-- Rust `BufRead::lines`: `read_line` yields the buffer's
newline-terminated segments, plus a final unterminated segment when the
buffer does not end in `\n`; the iterator pops the trailing `\n` of each
segment and, only after popping a `\n`, also pops a trailing `\r`.  So of
the chunks of `splitP` at `\n`, all but the last were newline-terminated
and get a trailing `\r` stripped; the last chunk is either the empty
segment after a final `\n` (never yielded, since `read_line` returns 0
bytes at EOF) or the unterminated final segment, which keeps any trailing
`\r`.  An empty buffer yields no lines. -/
def rustLines (s : List Char) : List (List Char) :=
  if s = [] then []
  else
    let parts := splitP (fun c => c = '\n') s
    if s.getLast? = some '\n' then parts.dropLast.map stripCR
    else parts.dropLast.map stripCR ++ [parts.getLastD []]

/-- Model of `Error<E>` of `input.rs`: the error returned by the splitting readers.
`IoError` wraps the `std::io::Error` (modelled by its message), `ParseError`
wraps the target type's own parse error, `FormatError` carries a message. -/
inductive Error (ε : Type u) where
  | IoError : String → Error ε
  | ParseError : ε → Error ε
  | FormatError : String → Error ε
deriving DecidableEq

/-- The filesystem model: a path either opens and decodes to contents, or
fails with an I/O error. -/
def FS : Type := String → Except String (List Char)

/-- Model of `FileReader` of `input.rs`: configuration before a splitting mode is
chosen; holds only the trim flag. -/
structure FileReader where
  trim : Bool
deriving DecidableEq

/-- Rust `FileReader::new()`: trim defaults to false. -/
def FileReader.new : FileReader := ⟨false⟩

/-- Rust `FileReader::trim()`: set the trim flag. -/
def FileReader.trim' (_r : FileReader) : FileReader := ⟨true⟩

/-- Model of `SplitLines` of `input.rs`: line-split configuration. -/
structure SplitLines where
  trim : Bool
deriving DecidableEq

/-- Model of `SplitWhitespace` of `input.rs`: whitespace-split configuration; the
struct has no fields (only a private unit marker) — in particular it does
not record the trim flag. -/
structure SplitWhitespace where
deriving DecidableEq

/-- Model of `SplitChar` of `input.rs`: char-split configuration. -/
structure SplitChar where
  trim : Bool
  delimiter : Char
deriving DecidableEq

/-- Rust `FileReader::split_lines()`: carries the trim flag over. -/
def FileReader.split_lines (r : FileReader) : SplitLines := ⟨r.trim⟩

/-- Rust `FileReader::split_whitespace()`: discards the trim flag (the struct
has no field for it). -/
def FileReader.split_whitespace (_r : FileReader) : SplitWhitespace := ⟨⟩

/-- Rust `FileReader::split_char(delimiter)`: carries the trim flag and the
delimiter over. -/
def FileReader.split_char (r : FileReader) (delimiter : Char) : SplitChar :=
  ⟨r.trim, delimiter⟩

/-- Rust `SplitLines::trim()`: set the trim flag. -/
def SplitLines.trim' (_r : SplitLines) : SplitLines := ⟨true⟩

/-- Rust `SplitChar::trim()`: set the trim flag, keep the delimiter. -/
def SplitChar.trim' (r : SplitChar) : SplitChar := ⟨true, r.delimiter⟩

/-- Rust `Iterator::collect::<Result<Vec<T>, E>>()` over `chunks.map(f)`: collect
the successes in order, short-circuiting at the first error. -/
def collectResults {ε : Type u} {τ : Type v} (f : List Char → Except ε τ) :
    List (List Char) → Except ε (List τ)
  | [] => Except.ok []
  | c :: cs =>
    match f c with
    | Except.error e => Except.error e
    | Except.ok a =>
      match collectResults f cs with
      | Except.error e => Except.error e
      | Except.ok as => Except.ok (a :: as)

/-- Rust `<FileReader as FromFile<String>>::read_from_file`: read the whole file
into a string, trimming the whole buffer when the trim flag is set.  Its
error type is `std::io::Error` directly, not `Error<E>`. -/
def FileReader.read_from_file (r : FileReader) (fs : FS) (path : String) :
    Except String (List Char) :=
  match fs path with
  | Except.error e => Except.error e
  | Except.ok buffer => Except.ok (if r.trim then rustTrim buffer else buffer)

/-- Rust `<SplitLines as FromFile<Vec<T>>>::read_from_file`: split the file into
lines, parse each (trimmed when the flag is set), short-circuit at the
first failure. -/
def SplitLines.read_from_file {ε : Type u} {τ : Type v} (r : SplitLines)
    (parse : List Char → Except ε τ) (fs : FS) (path : String) :
    Except (Error ε) (List τ) :=
  match fs path with
  | Except.error e => Except.error (Error.IoError e)
  | Except.ok buffer =>
    collectResults
      (fun line => (parse (if r.trim then rustTrim line else line)).mapError Error.ParseError)
      (rustLines buffer)

/-- Rust `<SplitWhitespace as FromFile<Vec<T>>>::read_from_file`: split the
buffer at whitespace (dropping empty chunks), parse each chunk,
short-circuit at the first failure. -/
def SplitWhitespace.read_from_file {ε : Type u} {τ : Type v} (_r : SplitWhitespace)
    (parse : List Char → Except ε τ) (fs : FS) (path : String) :
    Except (Error ε) (List τ) :=
  match fs path with
  | Except.error e => Except.error (Error.IoError e)
  | Except.ok buffer =>
    collectResults
      (fun chunk => (parse chunk).mapError Error.ParseError)
      (rustSplitWhitespace buffer)

/-- Rust `<SplitChar as FromFile<Vec<T>>>::read_from_file`: split the buffer at
every occurrence of the delimiter, parse each chunk (trimmed when the flag
is set), short-circuit at the first failure. -/
def SplitChar.read_from_file {ε : Type u} {τ : Type v} (r : SplitChar)
    (parse : List Char → Except ε τ) (fs : FS) (path : String) :
    Except (Error ε) (List τ) :=
  match fs path with
  | Except.error e => Except.error (Error.IoError e)
  | Except.ok buffer =>
    collectResults
      (fun chunk => (parse (if r.trim then rustTrim chunk else chunk)).mapError Error.ParseError)
      (splitP (fun c => c = r.delimiter) buffer)

/-- The three splitting configurations, bundled so that claims quantifying
over every splitting mode can be stated once. -/
inductive Mode where
  | lines (cfg : SplitLines)
  | whitespace (cfg : SplitWhitespace)
  | char (cfg : SplitChar)

/-- The chunks a mode hands to the parser (before per-chunk trimming). -/
def Mode.chunks : Mode → List Char → List (List Char)
  | Mode.lines _, buffer => rustLines buffer
  | Mode.whitespace _, buffer => rustSplitWhitespace buffer
  | Mode.char cfg, buffer => splitP (fun c => c = cfg.delimiter) buffer

/-- The per-chunk preprocessing a mode applies before parsing. -/
def Mode.proc : Mode → List Char → List Char
  | Mode.lines cfg, chunk => if cfg.trim then rustTrim chunk else chunk
  | Mode.whitespace _, chunk => chunk
  | Mode.char cfg, chunk => if cfg.trim then rustTrim chunk else chunk

/-- Dispatch to the mode's `read_from_file`. -/
def Mode.read {ε : Type u} {τ : Type v} :
    Mode → (List Char → Except ε τ) → FS → String → Except (Error ε) (List τ)
  | Mode.lines cfg => cfg.read_from_file
  | Mode.whitespace cfg => cfg.read_from_file
  | Mode.char cfg => cfg.read_from_file

/-- The splitting modes by name, used to transcribe the method tables of
`input.rs`. -/
inductive ModeTag where
  | lines
  | whitespace
  | char
deriving DecidableEq

/-- Transcription of the `impl` blocks of `input.rs`: which splitting-mode
result types define a `trim` method.  The source defines
`impl SplitLines { pub fn trim(mut self) ... }` and
`impl SplitChar { pub fn trim(mut self) ... }`, but the `impl SplitWhitespace`
block does not exist: `SplitWhitespace` has no `trim` method. -/
def reexposesTrim : ModeTag → Bool
  | ModeTag.lines => true
  | ModeTag.whitespace => false
  | ModeTag.char => true

/-- The value of a string of decimal digits. -/
def digitsVal (s : List Char) : Nat :=
  s.foldl (fun n c => 10 * n + (c.toNat - 48)) 0

/-- An example instance of the `FromStr` contract, used to instantiate
concrete reads: parses a decimal natural number and rejects anything else,
as an unsigned integer type's `from_str` does. -/
def parseNat (s : List Char) : Except String Nat :=
  if s ≠ [] ∧ s.all Char.isDigit then Except.ok (digitsVal s)
  else Except.error ("invalid digit: " ++ s.asString)

/-- The `FromStr` instance of `String` itself: always succeeds with the
chunk unchanged. -/
def parseString (s : List Char) : Except String (List Char) := Except.ok s

/-- A concrete filesystem holding one file with the given contents at every
path. -/
def constFS (contents : String) : FS := fun _ => Except.ok contents.toList

/-! ### Lemmas about the splitting primitives -/

theorem splitP_ne_nil (p : Char → Bool) : ∀ s : List Char, splitP p s ≠ []
  | [] => by simp [splitP]
  | c :: cs => by
    simp only [splitP]
    split
    · simp
    · cases h : splitP p cs with
      | nil => simp
      | cons a t => simp

/-- No chunk produced by `splitP p` contains a character satisfying `p`. -/
theorem splitP_sep_not_mem (p : Char → Bool) :
    ∀ s : List Char, ∀ c ∈ splitP p s, ∀ x ∈ c, p x = false := by
  intro s
  induction s with
  | nil =>
    intro c hc x hx
    simp [splitP] at hc
    subst hc
    simp at hx
  | cons a s ih =>
    intro c hc x hx
    simp only [splitP] at hc
    by_cases hpa : p a
    · rw [if_pos hpa] at hc
      rcases List.mem_cons.mp hc with h | h
      · subst h; simp at hx
      · exact ih c h x hx
    · rw [if_neg hpa] at hc
      cases hsp : splitP p s with
      | nil => exact absurd hsp (splitP_ne_nil p s)
      | cons b t =>
        rw [hsp] at hc
        rcases List.mem_cons.mp hc with h | h
        · subst h
          rcases List.mem_cons.mp hx with h | h
          · subst h; exact Bool.eq_false_iff.mpr hpa
          · exact ih b (hsp ▸ List.mem_cons_self b t) x h
        · exact ih c (hsp ▸ List.mem_cons_of_mem b h) x hx

/-- The split `splitP p` produces one more chunk than there are separator characters:
every occurrence splits, runs are not merged. -/
theorem splitP_length (p : Char → Bool) :
    ∀ s : List Char, (splitP p s).length = s.countP p + 1 := by
  intro s
  induction s with
  | nil => simp [splitP]
  | cons a s ih =>
    simp only [splitP]
    by_cases hpa : p a
    · rw [if_pos hpa]
      simp [List.countP_cons, hpa, ih]
    · rw [if_neg hpa]
      cases hsp : splitP p s with
      | nil => exact absurd hsp (splitP_ne_nil p s)
      | cons b t =>
        rw [hsp] at ih
        simp [List.countP_cons, hpa, ← ih]

theorem intercalate_cons_of_ne_nil {α : Type u} (sep a : List α) (l : List (List α))
    (h : l ≠ []) :
    List.intercalate sep (a :: l) = a ++ sep ++ List.intercalate sep l := by
  cases l with
  | nil => exact absurd rfl h
  | cons b t =>
    simp [List.intercalate, List.intersperse_cons_cons, List.append_assoc]

/-- Joining the chunks of `splitP (· = d)` with single copies of `d`
recovers the original buffer: the split loses nothing and consumes exactly
one delimiter per boundary. -/
theorem intercalate_splitP (d : Char) :
    ∀ s : List Char, List.intercalate [d] (splitP (fun c => c = d) s) = s := by
  intro s
  induction s with
  | nil => simp [splitP, List.intercalate]
  | cons a s ih =>
    simp only [splitP]
    by_cases had : a = d
    · rw [if_pos (by simp [had])]
      rw [intercalate_cons_of_ne_nil _ _ _ (splitP_ne_nil _ s), ih, had]
      simp
    · rw [if_neg (by simp [had])]
      cases hsp : splitP (fun c => c = d) s with
      | nil => exact absurd hsp (splitP_ne_nil _ s)
      | cons b t =>
        rw [hsp] at ih
        cases t with
        | nil =>
          simp only [List.intercalate] at ih ⊢
          simp at ih ⊢
          simp [ih]
        | cons b' t' =>
          rw [intercalate_cons_of_ne_nil _ _ _ (by simp)] at ih
          rw [intercalate_cons_of_ne_nil _ _ _ (by simp)]
          simp only [List.cons_append, List.append_assoc] at ih ⊢
          rw [ih]

/-! ### Lemmas about short-circuiting collection -/

/-- If every chunk parses, the collection succeeds with the parses in
order. -/
theorem collectResults_ok {ε : Type u} {τ : Type v} (f : List Char → Except ε τ)
    (g : List Char → τ) :
    ∀ l : List (List Char), (∀ c ∈ l, f c = Except.ok (g c)) →
      collectResults f l = Except.ok (l.map g) := by
  intro l
  induction l with
  | nil => intro _; rfl
  | cons c cs ih =>
    intro h
    simp only [collectResults, h c (List.mem_cons_self c cs),
      ih (fun d hd => h d (List.mem_cons_of_mem c hd)), List.map_cons]

/-- If every chunk before `bad` parses and `bad` fails with `e`, the
collection fails with `e`, whatever comes after `bad`. -/
theorem collectResults_first_error {ε : Type u} {τ : Type v}
    (f : List Char → Except ε τ) (bad : List Char) (e : ε) :
    ∀ (pre post : List (List Char)), (∀ c ∈ pre, ∃ a, f c = Except.ok a) →
      f bad = Except.error e →
      collectResults f (pre ++ bad :: post) = Except.error e := by
  intro pre
  induction pre with
  | nil =>
    intro post _ hbad
    simp [collectResults, hbad]
  | cons c cs ih =>
    intro post hpre hbad
    obtain ⟨a, ha⟩ := hpre c (List.mem_cons_self c cs)
    simp only [List.cons_append, collectResults, ha, List.append_eq,
      ih post (fun d hd => hpre d (List.mem_cons_of_mem c hd)) hbad]

/-- A failed collection's error is the error of some chunk. -/
theorem collectResults_error_mem {ε : Type u} {τ : Type v}
    (f : List Char → Except ε τ) (e : ε) :
    ∀ l : List (List Char), collectResults f l = Except.error e →
      ∃ c ∈ l, f c = Except.error e := by
  intro l
  induction l with
  | nil => intro h; simp [collectResults] at h
  | cons c cs ih =>
    intro h
    simp only [collectResults] at h
    cases hf : f c with
    | error e' =>
      rw [hf] at h
      cases h
      exact ⟨c, List.mem_cons_self c cs, hf⟩
    | ok a =>
      rw [hf] at h
      cases hrec : collectResults f cs with
      | error e' =>
        rw [hrec] at h
        cases h
        obtain ⟨d, hd, hfd⟩ := ih hrec
        exact ⟨d, List.mem_cons_of_mem c hd, hfd⟩
      | ok as => rw [hrec] at h; cases h

/-! ### Lemmas about lines -/

/-- Every line produced by `rustLines` has its `\n` terminator removed: no
line contains a newline character. -/
theorem rustLines_no_newline (s : List Char) :
    ∀ l ∈ rustLines s, '\n' ∉ l := by
  intro l hl hnl
  have hdrop : ∀ l', l' ∈ ((splitP (fun c => c = '\n') s).dropLast).map stripCR →
      '\n' ∉ l' := by
    intro l' hl' hnl'
    obtain ⟨l'', hl'', rfl⟩ := List.mem_map.mp hl'
    have hmem : l'' ∈ splitP (fun c => c = '\n') s := List.dropLast_subset _ hl''
    have hx : '\n' ∈ l'' := by
      simp only [stripCR] at hnl'
      by_cases hcr : l''.getLast? = some '\r'
      · rw [if_pos hcr] at hnl'
        exact List.dropLast_subset l'' hnl'
      · rw [if_neg hcr] at hnl'
        exact hnl'
    have := splitP_sep_not_mem _ s l'' hmem '\n' hx
    simp at this
  simp only [rustLines] at hl
  by_cases hs : s = []
  · rw [if_pos hs] at hl; simp at hl
  · rw [if_neg hs] at hl
    by_cases hlast : s.getLast? = some '\n'
    · rw [if_pos hlast] at hl
      exact hdrop l hl hnl
    · rw [if_neg hlast] at hl
      rcases List.mem_append.mp hl with h | h
      · exact hdrop l h hnl
      · have hl' : l = (splitP (fun c => c = '\n') s).getLastD [] := by
          simpa using h
        subst hl'
        rcases List.mem_cons.mp
            (List.getLastD_mem_cons (splitP (fun c => c = '\n') s) []) with h0 | hmem
        · rw [h0] at hnl; simp at hnl
        · have := splitP_sep_not_mem _ s _ hmem '\n' hnl
          simp at this

/-! ### The generic read pipeline -/

/-- On a file that opens and decodes, each mode's read is the
short-circuiting collection of the parses of its chunks. -/
theorem Mode.read_of_ok {ε : Type u} {τ : Type v} (m : Mode)
    (parse : List Char → Except ε τ) (fs : FS) (path : String)
    (buffer : List Char) (hfs : fs path = Except.ok buffer) :
    m.read parse fs path =
      collectResults (fun c => (parse (m.proc c)).mapError Error.ParseError)
        (m.chunks buffer) := by
  cases m <;>
    simp [Mode.read, Mode.proc, Mode.chunks, SplitLines.read_from_file,
      SplitWhitespace.read_from_file, SplitChar.read_from_file, hfs]

/-- On a file that fails to open or decode, each mode's read is the wrapped
I/O error. -/
theorem Mode.read_of_err {ε : Type u} {τ : Type v} (m : Mode)
    (parse : List Char → Except ε τ) (fs : FS) (path : String)
    (msg : String) (hfs : fs path = Except.error msg) :
    m.read parse fs path = Except.error (Error.IoError msg) := by
  cases m <;>
    simp [Mode.read, SplitLines.read_from_file,
      SplitWhitespace.read_from_file, SplitChar.read_from_file, hfs]

/-! ### The claims -/

/-- C1: for every splitting mode (lines, whitespace, char-delimited) and
every target parser, if the decoded file's chunk list has a failing chunk
that is first in chunk order (every earlier chunk parses), the read
returns `ParseError` wrapping exactly that chunk's parse error; no partial
sequence is returned, and the chunks after the failing one — universally
quantified here — never influence the result. -/
theorem C1_first_failure_short_circuits {ε : Type u} {τ : Type v} (m : Mode)
    (parse : List Char → Except ε τ) (fs : FS) (path : String)
    (buffer : List Char) (pre : List (List Char)) (bad : List Char)
    (post : List (List Char)) (e : ε)
    (hfs : fs path = Except.ok buffer)
    (hchunks : m.chunks buffer = pre ++ bad :: post)
    (hpre : ∀ c ∈ pre, ∃ a, parse (m.proc c) = Except.ok a)
    (hbad : parse (m.proc bad) = Except.error e) :
    m.read parse fs path = Except.error (Error.ParseError e) := by
  rw [Mode.read_of_ok m parse fs path buffer hfs, hchunks]
  refine collectResults_first_error _ bad (Error.ParseError e) pre post ?_ ?_
  · intro c hc
    obtain ⟨a, ha⟩ := hpre c hc
    exact ⟨a, by simp [ha, Except.mapError]⟩
  · simp [hbad, Except.mapError]

theorem C1_witness :
    (Mode.lines ⟨false⟩).read parseNat (constFS "4\nx\n9") "p"
      = Except.error (Error.ParseError "invalid digit: x")
    ∧ (Mode.lines ⟨false⟩).read parseNat (constFS "4\nx\r") "p"
      = Except.error (Error.ParseError "invalid digit: x\r") :=
  ⟨C1_first_failure_short_circuits (Mode.lines ⟨false⟩) parseNat
    (constFS "4\nx\n9") "p" ("4\nx\n9".toList) [['4']] ['x'] [['9']]
    "invalid digit: x" rfl (by decide)
    (by
      intro c hc
      have hc' : c = ['4'] := by simpa using hc
      exact ⟨4, by subst hc'; rfl⟩)
    rfl,
   C1_first_failure_short_circuits (Mode.lines ⟨false⟩) parseNat
    (constFS "4\nx\r") "p" ("4\nx\r".toList) [['4']] ['x', '\r'] []
    "invalid digit: x\r" rfl (by decide)
    (by
      intro c hc
      have hc' : c = ['4'] := by simpa using hc
      exact ⟨4, by subst hc'; rfl⟩)
    rfl⟩

/-- C2: for the line-split reader on a file that opens and decodes, a
successful read is the parses of the lines in file order, one per line;
every line has its newline terminator removed by the splitting step, and
the chunk handed to the parser is the trimmed line when trim is set and
the raw line otherwise (the hypothesis `hok` is stated on exactly that
chunk, empty lines included). -/
theorem C2_line_split {ε : Type u} {τ : Type v} (cfg : SplitLines)
    (parse : List Char → Except ε τ) (fs : FS) (path : String)
    (buffer : List Char) (g : List Char → τ)
    (hfs : fs path = Except.ok buffer)
    (hok : ∀ l ∈ rustLines buffer,
      parse (if cfg.trim then rustTrim l else l) = Except.ok (g l)) :
    cfg.read_from_file parse fs path = Except.ok ((rustLines buffer).map g)
    ∧ ∀ l ∈ rustLines buffer, '\n' ∉ l := by
  constructor
  · simp only [SplitLines.read_from_file, hfs]
    exact collectResults_ok _ g _
      (fun l hl => by simp [hok l hl, Except.mapError])
  · exact fun l hl => rustLines_no_newline buffer l hl

theorem C2_witness :
    (SplitLines.mk false).read_from_file parseString (constFS "A\n BC\nD  ") "p"
      = Except.ok ["A".toList, " BC".toList, "D  ".toList]
    ∧ (SplitLines.mk true).read_from_file parseString (constFS "A\n BC\nD  ") "p"
      = Except.ok ["A".toList, "BC".toList, "D".toList]
    ∧ (SplitLines.mk false).read_from_file parseString (constFS "A\nB\r") "p"
      = Except.ok [['A'], ['B', '\r']] :=
  ⟨((C2_line_split ⟨false⟩ parseString (constFS "A\n BC\nD  ") "p"
      ("A\n BC\nD  ".toList) (fun l => l) rfl (fun _ _ => rfl)).1).trans rfl,
   ((C2_line_split ⟨true⟩ parseString (constFS "A\n BC\nD  ") "p"
      ("A\n BC\nD  ".toList) rustTrim rfl (fun _ _ => rfl)).1).trans rfl,
   ((C2_line_split ⟨false⟩ parseString (constFS "A\nB\r") "p"
      ("A\nB\r".toList) (fun l => l) rfl (fun _ _ => rfl)).1).trans rfl⟩

/-- C3: for the char-delimited reader on a file that opens and decodes,
the chunks handed to the parser are the buffer split at every occurrence
of the delimiter: one more chunk than delimiter occurrences (so runs are
not merged and consecutive delimiters enclose an empty chunk), no chunk
contains the delimiter, and rejoining the chunks with single delimiters
recovers the buffer; the chunk is trimmed before parsing exactly when trim
is set, and a fully successful read returns the parsed chunks in order. -/
theorem C3_char_split {ε : Type u} {τ : Type v} (cfg : SplitChar)
    (parse : List Char → Except ε τ) (fs : FS) (path : String)
    (buffer : List Char) (g : List Char → τ)
    (hfs : fs path = Except.ok buffer) :
    cfg.read_from_file parse fs path =
      collectResults
        (fun chunk =>
          (parse (if cfg.trim then rustTrim chunk else chunk)).mapError Error.ParseError)
        (splitP (fun c => c = cfg.delimiter) buffer)
    ∧ (splitP (fun c => c = cfg.delimiter) buffer).length
        = buffer.countP (fun c => c = cfg.delimiter) + 1
    ∧ (∀ ch ∈ splitP (fun c => c = cfg.delimiter) buffer, cfg.delimiter ∉ ch)
    ∧ List.intercalate [cfg.delimiter] (splitP (fun c => c = cfg.delimiter) buffer)
        = buffer
    ∧ ((∀ ch ∈ splitP (fun c => c = cfg.delimiter) buffer,
          parse (if cfg.trim then rustTrim ch else ch) = Except.ok (g ch)) →
        cfg.read_from_file parse fs path
          = Except.ok ((splitP (fun c => c = cfg.delimiter) buffer).map g)) := by
  refine ⟨?_, splitP_length _ buffer, ?_, intercalate_splitP _ buffer, ?_⟩
  · simp only [SplitChar.read_from_file, hfs]
  · intro ch hch hmem
    have := splitP_sep_not_mem _ buffer ch hch cfg.delimiter hmem
    simp at this
  · intro hok
    simp only [SplitChar.read_from_file, hfs]
    exact collectResults_ok _ g _
      (fun ch hch => by simp [hok ch hch, Except.mapError])

theorem C3_witness :
    (SplitChar.mk false ',').read_from_file parseString (constFS "4,,5") "p"
      = Except.ok ["4".toList, [], "5".toList]
    ∧ (SplitChar.mk true ',').read_from_file parseString (constFS "4 , 5") "p"
      = Except.ok ["4".toList, "5".toList] :=
  ⟨((C3_char_split ⟨false, ','⟩ parseString (constFS "4,,5") "p"
      ("4,,5".toList) (fun l => l) rfl).2.2.2.2 (fun _ _ => rfl)).trans rfl,
   ((C3_char_split ⟨true, ','⟩ parseString (constFS "4 , 5") "p"
      ("4 , 5".toList) rustTrim rfl).2.2.2.2 (fun _ _ => rfl)).trans rfl⟩

/-- C4: for the whitespace-split reader on a file that opens and decodes,
the chunks handed to the parser are the buffer split at whitespace with
empty chunks discarded — every chunk is nonempty and contains no
whitespace character — and a fully successful read returns the parsed
chunks in file order. -/
theorem C4_whitespace_split {ε : Type u} {τ : Type v} (cfg : SplitWhitespace)
    (parse : List Char → Except ε τ) (fs : FS) (path : String)
    (buffer : List Char) (g : List Char → τ)
    (hfs : fs path = Except.ok buffer) :
    cfg.read_from_file parse fs path =
      collectResults (fun chunk => (parse chunk).mapError Error.ParseError)
        (rustSplitWhitespace buffer)
    ∧ (∀ ch ∈ rustSplitWhitespace buffer, ch ≠ [] ∧ ∀ x ∈ ch, isWS x = false)
    ∧ ((∀ ch ∈ rustSplitWhitespace buffer, parse ch = Except.ok (g ch)) →
        cfg.read_from_file parse fs path
          = Except.ok ((rustSplitWhitespace buffer).map g)) := by
  refine ⟨?_, ?_, ?_⟩
  · simp only [SplitWhitespace.read_from_file, hfs]
  · intro ch hch
    obtain ⟨hmem, hne⟩ := List.mem_filter.mp hch
    refine ⟨by simpa using hne, ?_⟩
    exact fun x hx => splitP_sep_not_mem _ buffer ch hmem x hx
  · intro hok
    simp only [SplitWhitespace.read_from_file, hfs]
    exact collectResults_ok _ g _
      (fun ch hch => by simp [hok ch hch, Except.mapError])

theorem C4_witness :
    SplitWhitespace.mk.read_from_file parseNat (constFS " 4 8\n15\t16  23 42\n") "p"
      = Except.ok [4, 8, 15, 16, 23, 42] := by
  have h := (C4_whitespace_split SplitWhitespace.mk parseNat
      (constFS " 4 8\n15\t16  23 42\n") "p" (" 4 8\n15\t16  23 42\n".toList)
      digitsVal rfl).2.2
    (by
      intro ch hch
      have e : rustSplitWhitespace " 4 8\n15\t16  23 42\n".toList
          = ["4".toList, "8".toList, "15".toList, "16".toList,
             "23".toList, "42".toList] := by decide
      rw [e] at hch
      simp only [List.mem_cons, List.not_mem_nil, or_false] at hch
      rcases hch with rfl | rfl | rfl | rfl | rfl | rfl <;> rfl)
  rw [h]
  congr 1

/-- C5: for the whitespace-split mode the trim flag has no effect:
building the configuration after setting trim yields the very same
configuration as building it without, and the reads agree on every file,
path and target parser. -/
theorem C5_whitespace_trim_noop {ε : Type u} {τ : Type v} (r : FileReader)
    (parse : List Char → Except ε τ) (fs : FS) (path : String) :
    FileReader.split_whitespace (FileReader.trim' r) = FileReader.split_whitespace r
    ∧ (FileReader.split_whitespace (FileReader.trim' r)).read_from_file parse fs path
        = (FileReader.split_whitespace r).read_from_file parse fs path :=
  ⟨rfl, rfl⟩

/-- C6 counterexample: it is not the case that every splitting-mode result
type re-exposes a trim method — `SplitWhitespace`, the whitespace-split
result, defines none. -/
theorem C6_counterexample : ¬ ∀ t : ModeTag, reexposesTrim t = true :=
  fun h => absurd (h ModeTag.whitespace) (by decide)

/-- C6 (amended): trim is valid before a splitting mode is chosen, and is
independently re-exposed on the line-split and char-split results —
returning the same configuration with trim=true and all other fields (the
delimiter) unchanged — but the whitespace-split result does not re-expose
trim. -/
theorem C6_trim_reexposure :
    (∀ r : FileReader, (FileReader.trim' r).trim = true)
    ∧ reexposesTrim ModeTag.lines = true
    ∧ (∀ c : SplitLines, (SplitLines.trim' c).trim = true)
    ∧ reexposesTrim ModeTag.char = true
    ∧ (∀ c : SplitChar, SplitChar.trim' c = ⟨true, c.delimiter⟩)
    ∧ reexposesTrim ModeTag.whitespace = false :=
  ⟨fun _ => rfl, rfl, fun _ => rfl, rfl, fun _ => rfl, rfl⟩

/-- C7: for the whole-content reader on a file that opens and decodes, the
result is the buffer trimmed of leading and trailing whitespace when trim
is set and the buffer unchanged otherwise; on contents without surrounding
whitespace both configurations return the same string. -/
theorem C7_whole_content (r : FileReader) (fs : FS) (path : String)
    (buffer : List Char) (hfs : fs path = Except.ok buffer) :
    r.read_from_file fs path
      = Except.ok (if r.trim then rustTrim buffer else buffer)
    ∧ (rustTrim buffer = buffer →
        (FileReader.mk true).read_from_file fs path
          = (FileReader.mk false).read_from_file fs path) := by
  constructor
  · simp [FileReader.read_from_file, hfs]
  · intro h
    simp [FileReader.read_from_file, hfs, h]

theorem C7_witness :
    (FileReader.mk true).read_from_file (constFS "  This is a string.\n") "p"
      = Except.ok "This is a string.".toList
    ∧ (FileReader.mk false).read_from_file (constFS "  This is a string.\n") "p"
      = Except.ok "  This is a string.\n".toList
    ∧ (FileReader.mk true).read_from_file (constFS "This is a string.") "p"
      = (FileReader.mk false).read_from_file (constFS "This is a string.") "p" :=
  ⟨((C7_whole_content ⟨true⟩ (constFS "  This is a string.\n") "p"
      ("  This is a string.\n".toList) rfl).1).trans rfl,
   ((C7_whole_content ⟨false⟩ (constFS "  This is a string.\n") "p"
      ("  This is a string.\n".toList) rfl).1).trans rfl,
   (C7_whole_content ⟨true⟩ (constFS "This is a string.") "p"
      ("This is a string.".toList) rfl).2 (by decide)⟩

/-- C8: no splitting-mode read ever returns `FormatError` — for every
mode, parser, filesystem and path the result is a success, an `IoError`,
or a `ParseError`. -/
theorem C8_no_format_error {ε : Type u} {τ : Type v} (m : Mode)
    (parse : List Char → Except ε τ) (fs : FS) (path : String) :
    (∃ vs, m.read parse fs path = Except.ok vs)
    ∨ (∃ msg, m.read parse fs path = Except.error (Error.IoError msg))
    ∨ (∃ e, m.read parse fs path = Except.error (Error.ParseError e)) := by
  cases hfs : fs path with
  | error msg =>
    exact Or.inr (Or.inl ⟨msg, Mode.read_of_err m parse fs path msg hfs⟩)
  | ok buffer =>
    rw [Mode.read_of_ok m parse fs path buffer hfs]
    cases hc : collectResults
        (fun c => (parse (m.proc c)).mapError Error.ParseError)
        (m.chunks buffer) with
    | ok vs => exact Or.inl ⟨vs, rfl⟩
    | error e =>
      obtain ⟨c, _, hfc⟩ := collectResults_error_mem _ e _ hc
      cases hp : parse (m.proc c) with
      | ok a => rw [hp] at hfc; simp [Except.mapError] at hfc
      | error pe =>
        rw [hp] at hfc
        simp only [Except.mapError] at hfc
        cases hfc
        exact Or.inr (Or.inr ⟨pe, rfl⟩)

/-- C9: reads are deterministic and stateless — configurations with equal
fields (same trim flag, same delimiter) yield identical results on the
same filesystem and path, for every splitting state and for the
whole-content reader.  The reads are pure functions of the configuration
value, so no call can mutate the configuration it is invoked on. -/
theorem C9_deterministic {ε : Type u} {τ : Type v}
    (parse : List Char → Except ε τ) (fs : FS) (path : String) :
    (∀ r₁ r₂ : FileReader, r₁.trim = r₂.trim →
      r₁.read_from_file fs path = r₂.read_from_file fs path)
    ∧ (∀ c₁ c₂ : SplitLines, c₁.trim = c₂.trim →
      c₁.read_from_file parse fs path = c₂.read_from_file parse fs path)
    ∧ (∀ c₁ c₂ : SplitWhitespace,
      c₁.read_from_file parse fs path = c₂.read_from_file parse fs path)
    ∧ (∀ c₁ c₂ : SplitChar, c₁.trim = c₂.trim → c₁.delimiter = c₂.delimiter →
      c₁.read_from_file parse fs path = c₂.read_from_file parse fs path) := by
  refine ⟨?_, ?_, ?_, ?_⟩
  · intro r₁ r₂ h
    have : r₁ = r₂ := by cases r₁; cases r₂; simpa using h
    rw [this]
  · intro c₁ c₂ h
    have : c₁ = c₂ := by cases c₁; cases c₂; simpa using h
    rw [this]
  · intro c₁ c₂
    rfl
  · intro c₁ c₂ h₁ h₂
    have : c₁ = c₂ := by
      cases c₁; cases c₂
      simp only at h₁ h₂
      rw [h₁, h₂]
    rw [this]

theorem C9_witness :
    (SplitChar.mk true ',').read_from_file parseNat (constFS "1,2") "p"
      = (SplitChar.mk true ',').read_from_file parseNat (constFS "1,2") "p" :=
  (C9_deterministic parseNat (constFS "1,2") "p").2.2.2
    ⟨true, ','⟩ ⟨true, ','⟩ rfl rfl

/-- C10: on a file whose contents are empty, the char-delimited reader
hands exactly one chunk — the empty string — to the parser, returning a
one-element sequence when the parser accepts it and `ParseError` when it
does not (never an empty sequence), while the line-split reader returns
the empty sequence. -/
theorem C10_empty_file {ε : Type u} {τ : Type v} (cfgC : SplitChar)
    (cfgL : SplitLines) (parse : List Char → Except ε τ) (fs : FS)
    (path : String) (hfs : fs path = Except.ok []) :
    cfgC.read_from_file parse fs path
      = (match parse [] with
         | Except.ok a => Except.ok [a]
         | Except.error e => Except.error (Error.ParseError e))
    ∧ cfgL.read_from_file parse fs path = Except.ok [] := by
  constructor
  · simp only [SplitChar.read_from_file, hfs]
    have htrim : (if cfgC.trim then rustTrim [] else []) = [] := by
      cases h : cfgC.trim <;> simp [h, rustTrim]
    show collectResults _ (splitP (fun c => c = cfgC.delimiter) []) = _
    simp only [splitP, collectResults, htrim]
    cases hp : parse [] <;> simp [Except.mapError]
  · simp only [SplitLines.read_from_file, hfs]
    rfl

theorem C10_witness :
    (SplitChar.mk false ',').read_from_file parseNat (constFS "") "p"
      = Except.error (Error.ParseError "invalid digit: ")
    ∧ (SplitChar.mk false ',').read_from_file parseString (constFS "") "p"
      = Except.ok [[]]
    ∧ (SplitLines.mk false).read_from_file parseNat (constFS "") "p"
      = Except.ok [] :=
  ⟨((C10_empty_file ⟨false, ','⟩ ⟨false⟩ parseNat (constFS "") "p" rfl).1).trans rfl,
   ((C10_empty_file ⟨false, ','⟩ ⟨false⟩ parseString (constFS "") "p" rfl).1).trans rfl,
   (C10_empty_file ⟨false, ','⟩ ⟨false⟩ parseNat (constFS "") "p" rfl).2⟩
